import Mathlib

/-!
Verification development for the rustig call-graph construction core.

The definitions below are a shallow embedding of the code in
`src/lib/callgraph/src/callgraph/x86_cg_builder.rs`, `src/lib/callgraph/src/errors.rs`,
`src/src/output.rs`, `src/src/errors.rs` and `src/src/cmd_args.rs`.
Rust `HashMap`s become association lists whose insert replaces the previous
binding of the key; the petgraph `StableGraph` becomes a list of nodes (the node
identity is the position at which a node was appended, which is stable because
the builder never removes nodes) together with a list of edges; machine
addresses become `Nat`.  Types of the repository that are not part of the
given sources (the `Procedure` / `Invocation` data model, the disassembly
engine's instruction records, `Context`, `parse_config`, `PanicPattern`) are
modelled from the specification, as marked on their doc comments.
-/

namespace Rustig

/-- Modelled from the spec: the instruction record supplied by the disassembly
engine, carrying the instruction address and the semantic group tags that
`ctx.capstone.insn_group_ids` reports for the instruction (spec section 3,
`disassembly` field). -/
structure Instruction where
  address : Nat
  groups : List Nat
deriving DecidableEq

/-- Modelled from the spec: crate provenance of a procedure (`defining_crate`,
spec section 3). -/
structure Crate where
  name : String
  version : Option String
deriving DecidableEq

/-- Modelled from the spec: an optional source mapping (`location`, spec
section 3). -/
structure Location where
  file : String
  line : Nat
deriving DecidableEq

/-- Modelled from the spec: the boolean attributes of a procedure, mutated by
later analysis passes and not at construction time (spec section 3). -/
structure ProcedureAttributes where
  entry_point : Bool
  reachable_from_entry_point : Bool
  is_panic : Bool
  is_panic_origin : Bool
  whitelisted : Bool
deriving DecidableEq

/-- Modelled from the spec: the `Procedure` record, one per defined function in
the binary (spec section 3).  `P` is the caller-supplied opaque metadata slot
(`PMetadata` in the Rust sources). -/
structure Procedure (P : Type) where
  start_address : Nat
  name : String
  linkage_name : String
  linkage_name_demangled : String
  defining_crate : Crate
  location : Option Location
  disassembly : List Instruction
  attributes : ProcedureAttributes
  metadata : P
deriving DecidableEq

/-- The four invocation mechanisms; the constructors mirror the four match arms
on `callgraph::InvocationType` in `src/src/output.rs`. -/
inductive InvocationType
  | Direct
  | ProcedureReference
  | VTable
  | Jump
deriving DecidableEq

/-- Modelled from the spec: attributes of an invocation (spec section 3). -/
structure InvocationAttributes where
  whitelisted : Bool
deriving DecidableEq

/-- Modelled from the spec: one inlined-call frame of an invocation (spec
section 3, `frames`); the field names mirror the accesses in
`src/src/output.rs`.  `F` is the opaque frame metadata slot. -/
structure InlineFunctionFrame (F : Type) where
  function_name : String
  location : Location
  defining_crate : Crate
  metadata : F
deriving DecidableEq

/-- Modelled from the spec: the `Invocation` record, one per detected call/jump
edge (spec section 3).  `I` is the opaque metadata slot (`IMetadata`). -/
structure Invocation (I F : Type) where
  invocation_type : InvocationType
  attributes : InvocationAttributes
  frames : List (InlineFunctionFrame F)
  metadata : I
deriving DecidableEq

/-- The petgraph `StableGraph` as the builder uses it: nodes are appended and
never removed, so a node identity is the position at which the node was
appended; edges connect node identities and carry a payload. -/
structure StableGraph (N E : Type) where
  nodes : List N
  edges : List (Nat × Nat × E)
deriving DecidableEq

/-- Modelled from the spec: the part of the analysis `Context` that
`build_call_graph` consumes (spec section 6): the compilation-unit headers of
`ctx.dwarf_info.units()` (abstract handles), the directory listing returned by
`get_compilation_unit_directories`, the toolchain version returned by
`dwarf_utils::get_rust_version` (best-effort, may be absent), and the external
procedure extraction `get_procedures_for_compilation_unit` taking the
directory listing and a unit header. -/
structure Context (P : Type) where
  units : List Nat
  compilation_unit_directories : List String
  rust_version : Option String
  procedures_of : List String → Nat → List (Procedure P)

/-- External collaborator wrapper: `get_compilation_unit_directories(ctx)`. -/
def get_compilation_unit_directories (ctx : Context P) : List String :=
  ctx.compilation_unit_directories

/-- External collaborator wrapper: `dwarf_utils::get_rust_version(ctx)`. -/
def get_rust_version (ctx : Context P) : Option String :=
  ctx.rust_version

/-- External collaborator wrapper:
`get_procedures_for_compilation_unit(ctx, dirs, unit_header)`. -/
def get_procedures_for_compilation_unit (ctx : Context P) (dirs : List String)
    (unit_header : Nat) : List (Procedure P) :=
  ctx.procedures_of dirs unit_header

/-- The read-only bag handed to every finder
(`CompilationInfo { compilation_dirs, rust_version }` in the Rust sources). -/
structure CompilationInfo where
  compilation_dirs : List String
  rust_version : String
deriving DecidableEq

/-- The aggregate returned by the builder: the graph of procedures and
invocations plus the two address-keyed indices (`HashMap`s in Rust, modelled
as association lists with replacing insert). -/
structure CallGraph (P I F : Type) where
  graph : StableGraph (Procedure P) (Invocation I F)
  proc_index : List (Nat × Nat)
  call_index : List (Nat × Nat)

/-- `HashMap::insert`: bind `k` to `v`, replacing any previous binding of `k`. -/
def hmInsert (m : List (Nat × Nat)) (k v : Nat) : List (Nat × Nat) :=
  (k, v) :: m.filter (fun p => p.1 != k)

/-- The hard-coded capstone group id `InsnGroupId(2)` bound at
x86_cg_builder.rs line 51 (`group_calls`). -/
def group_calls : Nat := 2

/-- The hard-coded capstone group id `InsnGroupId(1)` bound at
x86_cg_builder.rs line 52 (`group_jumps`). -/
def group_jumps : Nat := 1

/-- The filter applied to a procedure's disassembly at x86_cg_builder.rs
lines 56-58: the instruction's group ids, as reported by
`ctx.capstone.insn_group_ids`, contain `group_calls` or `group_jumps`. -/
def insn_in_call_or_jump_group (insn : Instruction) : Bool :=
  insn.groups.any (fun id => id == group_calls || id == group_jumps)

/-- One step of the node-population pass (x86_cg_builder.rs lines 46-63): add
the procedure as a new graph node, record every call/jump-class instruction
address of its disassembly in `call_index` (mapped to the new node), and record
`start_address → node` in `proc_index`. -/
def add_procedure (st : CallGraph P I F) (procedure : Procedure P) :
    CallGraph P I F :=
  let address := procedure.start_address
  let idx := st.graph.nodes.length
  let graph : StableGraph (Procedure P) (Invocation I F) :=
    { st.graph with nodes := st.graph.nodes ++ [procedure] }
  let call_index :=
    (procedure.disassembly.filter insn_in_call_or_jump_group).foldl
      (fun m insn => hmInsert m insn.address idx) st.call_index
  { graph := graph
    proc_index := hmInsert st.proc_index address idx
    call_index := call_index }

/-- The flattening of x86_cg_builder.rs lines 33-43: map every compilation unit
to its procedures and fold the resulting vectors into one ordered sequence. -/
def flatten_procedures (ctx : Context P) : List (Procedure P) :=
  ((ctx.units.map (fun unit_header =>
      get_procedures_for_compilation_unit ctx
        (get_compilation_unit_directories ctx) unit_header)).foldl
    (fun vec elem => vec ++ elem) [])

/-- The node-population pass (x86_cg_builder.rs lines 33-63), starting from the
empty graph and empty indices of lines 21-25. -/
def node_population (ctx : Context P) : CallGraph P I F :=
  (flatten_procedures ctx).foldl add_procedure
    { graph := { nodes := [], edges := [] }, proc_index := [], call_index := [] }

/-- The strategy interface `InvocationFinder::find_invocations(graph,
proc_index, call_index, ctx, compilation_info)`: it mutates the graph and both
indices, modelled as returning their updated values. -/
def InvocationFinder (P I F : Type) : Type :=
  StableGraph (Procedure P) (Invocation I F) → List (Nat × Nat) → List (Nat × Nat) →
    Context P → CompilationInfo →
    StableGraph (Procedure P) (Invocation I F) × List (Nat × Nat) × List (Nat × Nat)

/-- Struct able to build a callgraph from an x86 binary, owning the ordered
finder list (`X86CallGraphBuilder`). -/
structure X86CallGraphBuilder (P I F : Type) where
  invocation_finders : List (InvocationFinder P I F)

/-- Apply one finder to the shared state (x86_cg_builder.rs lines 65-76). -/
def apply_finder (ctx : Context P) (info : CompilationInfo)
    (st : CallGraph P I F) (finder : InvocationFinder P I F) : CallGraph P I F :=
  let r := finder st.graph st.proc_index st.call_index ctx info
  { graph := r.1, proc_index := r.2.1, call_index := r.2.2 }

/-- `build_call_graph` (x86_cg_builder.rs lines 19-86): compute the
compilation-unit directories and the toolchain version, run the
node-population pass, then invoke each finder of `invocation_finders` in
order on the shared graph and indices, each receiving the `CompilationInfo`
with the directories and `rust_version.unwrap_or_default()`. -/
def build_call_graph (builder : X86CallGraphBuilder P I F) (ctx : Context P) :
    CallGraph P I F :=
  let compilation_unit_dirs := get_compilation_unit_directories ctx
  let rust_version := get_rust_version ctx
  let info : CompilationInfo :=
    { compilation_dirs := compilation_unit_dirs
      rust_version := rust_version.getD "" }
  builder.invocation_finders.foldl (apply_finder ctx info) (node_population ctx)

/-- Observable events of one `build_call_graph` run, used to state ordering
properties of the two construction phases. -/
inductive BuildEvent
  | computed_dirs (dirs : List String)
  | computed_version (version : Option String)
  | node_added (addr : Nat)
  | finder_invoked (i : Nat) (info : CompilationInfo)
deriving DecidableEq

/-- `build_call_graph` instrumented with an event log: the same computation as
`build_call_graph`, threading a list of `BuildEvent`s through the two folds. -/
def build_call_graph_events (builder : X86CallGraphBuilder P I F)
    (ctx : Context P) : CallGraph P I F × List BuildEvent :=
  let compilation_unit_dirs := get_compilation_unit_directories ctx
  let rust_version := get_rust_version ctx
  let info : CompilationInfo :=
    { compilation_dirs := compilation_unit_dirs
      rust_version := rust_version.getD "" }
  let start : CallGraph P I F × List BuildEvent :=
    ({ graph := { nodes := [], edges := [] }, proc_index := [], call_index := [] },
     [BuildEvent.computed_dirs compilation_unit_dirs,
      BuildEvent.computed_version rust_version])
  let populated :=
    (flatten_procedures ctx).foldl
      (fun p procedure =>
        (add_procedure p.1 procedure,
         p.2 ++ [BuildEvent.node_added procedure.start_address])) start
  builder.invocation_finders.enum.foldl
    (fun p x =>
      (apply_finder ctx info p.1 x.2,
       p.2 ++ [BuildEvent.finder_invoked x.1 info])) populated

/-- Membership in a map after a replacing insert: the pair is the new binding,
or an old binding whose key differs from the inserted key. -/
theorem mem_hmInsert {m : List (Nat × Nat)} {k v a n : Nat} :
    (a, n) ∈ hmInsert m k v ↔ (a = k ∧ n = v) ∨ ((a, n) ∈ m ∧ a ≠ k) := by
  simp [hmInsert, List.mem_filter, Prod.ext_iff]

/-- A replacing insert never removes a key other than its own, and always
establishes its own key. -/
theorem hasKey_hmInsert {m : List (Nat × Nat)} {k v a : Nat}
    (h : (∃ n, (a, n) ∈ m) ∨ a = k) : ∃ n, (a, n) ∈ hmInsert m k v := by
  by_cases hak : a = k
  · exact ⟨v, mem_hmInsert.mpr (Or.inl ⟨hak, rfl⟩)⟩
  · rcases h with ⟨n, hn⟩ | hk
    · exact ⟨n, mem_hmInsert.mpr (Or.inr ⟨hn, hak⟩)⟩
    · exact absurd hk hak

/-- Membership after the per-procedure `call_index` fold: either an old
binding, or a binding produced by one of the instructions of the list. -/
theorem mem_call_fold {idx : Nat} :
    ∀ {insns : List Instruction} {m : List (Nat × Nat)} {a n : Nat},
      (a, n) ∈ insns.foldl (fun m insn => hmInsert m insn.address idx) m →
      (a, n) ∈ m ∨ (n = idx ∧ ∃ insn ∈ insns, insn.address = a) := by
  intro insns
  induction insns with
  | nil => intro m a n h; exact Or.inl h
  | cons i rest ih =>
    intro m a n h
    rcases ih h with h' | ⟨hn, insn, hmem, haddr⟩
    · rcases mem_hmInsert.mp h' with ⟨ha, hn⟩ | ⟨hm, _⟩
      · exact Or.inr ⟨hn, i, List.mem_cons_self i rest, ha.symm⟩
      · exact Or.inl hm
    · exact Or.inr ⟨hn, insn, List.mem_cons_of_mem i hmem, haddr⟩

/-- The per-procedure `call_index` fold preserves key presence. -/
theorem hasKey_call_fold {idx a : Nat} :
    ∀ {insns : List Instruction} {m : List (Nat × Nat)},
      (∃ n, (a, n) ∈ m) →
      ∃ n, (a, n) ∈ insns.foldl (fun m insn => hmInsert m insn.address idx) m := by
  intro insns
  induction insns with
  | nil => intro m h; exact h
  | cons i rest ih => intro m h; exact ih (hasKey_hmInsert (Or.inl h))

/-- The per-procedure `call_index` fold establishes the key of every
instruction of its list. -/
theorem hasKey_call_fold_of_mem {idx : Nat} {i : Instruction} :
    ∀ {insns : List Instruction} {m : List (Nat × Nat)}, i ∈ insns →
      ∃ n, (i.address, n) ∈ insns.foldl (fun m insn => hmInsert m insn.address idx) m := by
  intro insns
  induction insns with
  | nil => intro m h; exact absurd h (List.not_mem_nil i)
  | cons j rest ih =>
    intro m h
    rcases List.mem_cons.mp h with rfl | hrest
    · rw [List.foldl_cons]
      exact hasKey_call_fold (hasKey_hmInsert (Or.inr rfl))
    · rw [List.foldl_cons]
      exact ih hrest

/-- The node-population fold appends exactly the procedures of its list to the
node sequence of the graph, in order. -/
theorem foldl_add_procedure_nodes :
    ∀ (l : List (Procedure P)) (st : CallGraph P I F),
      (l.foldl add_procedure st).graph.nodes = st.graph.nodes ++ l := by
  intro l
  induction l with
  | nil => intro st; simp
  | cons p rest ih =>
    intro st
    rw [List.foldl_cons, ih]
    simp [add_procedure]

/-- The node-population fold adds no edges. -/
theorem foldl_add_procedure_edges :
    ∀ (l : List (Procedure P)) (st : CallGraph P I F),
      (l.foldl add_procedure st).graph.edges = st.graph.edges := by
  intro l
  induction l with
  | nil => intro st; rfl
  | cons p rest ih =>
    intro st
    rw [List.foldl_cons, ih]
    rfl

/-- The nodes of the populated graph are exactly the flattened procedures. -/
theorem node_population_nodes (ctx : Context P) :
    (node_population (I := I) (F := F) ctx).graph.nodes = flatten_procedures ctx := by
  unfold node_population
  rw [foldl_add_procedure_nodes]
  rfl

/-- The populated graph has no edges. -/
theorem node_population_edges (ctx : Context P) :
    (node_population (I := I) (F := F) ctx).graph.edges = [] := by
  unfold node_population
  rw [foldl_add_procedure_edges]

/-- Unfolding equation: the `call_index` produced by one node-population step. -/
theorem add_procedure_call_index (st : CallGraph P I F) (p : Procedure P) :
    (add_procedure st p).call_index =
      (p.disassembly.filter insn_in_call_or_jump_group).foldl
        (fun m insn => hmInsert m insn.address st.graph.nodes.length) st.call_index := rfl

/-- Unfolding equation: the `proc_index` produced by one node-population step. -/
theorem add_procedure_proc_index (st : CallGraph P I F) (p : Procedure P) :
    (add_procedure st p).proc_index =
      hmInsert st.proc_index p.start_address st.graph.nodes.length := rfl

/-- Unfolding equation: the nodes produced by one node-population step. -/
theorem add_procedure_nodes (st : CallGraph P I F) (p : Procedure P) :
    (add_procedure st p).graph.nodes = st.graph.nodes ++ [p] := rfl

/-- Getting from an appended list below the length of the left part. -/
theorem get_append_left {α : Type _} {l1 l2 : List α} {n : Nat} (h : n < l1.length)
    (h2 : n < (l1 ++ l2).length) : (l1 ++ l2).get ⟨n, h2⟩ = l1.get ⟨n, h⟩ := by
  simp [List.getElem_append, h]

/-- Membership in `call_index` after the node-population fold comes from an old
binding or from a call/jump-class instruction of one of the procedures. -/
theorem mem_call_index_foldl :
    ∀ {l : List (Procedure P)} {st : CallGraph P I F} {a n : Nat},
      (a, n) ∈ (l.foldl add_procedure st).call_index →
      (a, n) ∈ st.call_index ∨ ∃ p ∈ l, ∃ insn ∈ p.disassembly,
        insn.address = a ∧ insn_in_call_or_jump_group insn = true := by
  intro l
  induction l with
  | nil => intro st a n h; exact Or.inl h
  | cons p rest ih =>
    intro st a n h
    rw [List.foldl_cons] at h
    rcases ih h with h' | ⟨q, hq, insn, hi, ha, hg⟩
    · rw [add_procedure_call_index] at h'
      rcases mem_call_fold h' with hm | ⟨_, insn, hins, haddr⟩
      · exact Or.inl hm
      · rcases List.mem_filter.mp hins with ⟨hmem, hgrp⟩
        exact Or.inr ⟨p, List.mem_cons_self p rest, insn, hmem, haddr, hgrp⟩
    · exact Or.inr ⟨q, List.mem_cons_of_mem p hq, insn, hi, ha, hg⟩

/-- Every call/jump-class instruction of every procedure of the list has its
address bound in `call_index` after the node-population fold. -/
theorem hasKey_call_index_foldl :
    ∀ {l : List (Procedure P)} {st : CallGraph P I F} {a : Nat},
      ((∃ n, (a, n) ∈ st.call_index) ∨
        ∃ p ∈ l, ∃ insn ∈ p.disassembly,
          insn.address = a ∧ insn_in_call_or_jump_group insn = true) →
      ∃ n, (a, n) ∈ (l.foldl add_procedure st).call_index := by
  intro l
  induction l with
  | nil =>
    intro st a h
    rcases h with h | ⟨p, hp, _⟩
    · exact h
    · exact absurd hp (List.not_mem_nil p)
  | cons p rest ih =>
    intro st a h
    rw [List.foldl_cons]
    rcases h with h | ⟨q, hq, insn, hi, ha, hg⟩
    · refine ih (Or.inl ?_)
      rw [add_procedure_call_index]
      exact hasKey_call_fold h
    · rcases List.mem_cons.mp hq with rfl | hrest
      · refine ih (Or.inl ?_)
        rw [add_procedure_call_index]
        subst ha
        exact hasKey_call_fold_of_mem (List.mem_filter.mpr ⟨hi, hg⟩)
      · exact ih (Or.inr ⟨q, hrest, insn, hi, ha, hg⟩)

/-- Containment invariant: every binding of `call_index` points at a node whose
stored procedure has an instruction at the bound address. -/
def call_index_contained (st : CallGraph P I F) : Prop :=
  ∀ a n, (a, n) ∈ st.call_index →
    ∃ h : n < st.graph.nodes.length,
      ∃ insn ∈ (st.graph.nodes.get ⟨n, h⟩).disassembly, insn.address = a

/-- One node-population step preserves the containment invariant. -/
theorem call_index_contained_add {st : CallGraph P I F} {p : Procedure P}
    (h : call_index_contained st) : call_index_contained (add_procedure st p) := by
  intro a n hm
  rw [add_procedure_call_index] at hm
  rcases mem_call_fold hm with hold | ⟨rfl, insn, hins, haddr⟩
  · obtain ⟨hn, insn, hins, haddr⟩ := h a n hold
    have hn' : n < (add_procedure st p).graph.nodes.length := by
      rw [add_procedure_nodes, List.length_append]
      omega
    refine ⟨hn', insn, ?_, haddr⟩
    have hget : (add_procedure st p).graph.nodes.get ⟨n, hn'⟩ = st.graph.nodes.get ⟨n, hn⟩ :=
      get_append_left hn _
    rw [hget]
    exact hins
  · have hn' : st.graph.nodes.length < (add_procedure st p).graph.nodes.length := by
      rw [add_procedure_nodes, List.length_append]
      simp
    refine ⟨hn', insn, ?_, haddr⟩
    have hget : (add_procedure st p).graph.nodes.get ⟨st.graph.nodes.length, hn'⟩ = p := by
      show (st.graph.nodes ++ [p]).get ⟨st.graph.nodes.length, hn'⟩ = p
      simp
    rw [hget]
    exact (List.mem_filter.mp hins).1

/-- The node-population fold preserves the containment invariant. -/
theorem call_index_contained_foldl :
    ∀ {l : List (Procedure P)} {st : CallGraph P I F},
      call_index_contained st → call_index_contained (l.foldl add_procedure st) := by
  intro l
  induction l with
  | nil => intro st h; exact h
  | cons p rest ih =>
    intro st h
    rw [List.foldl_cons]
    exact ih (call_index_contained_add h)

/-- The fully populated state satisfies the containment invariant. -/
theorem call_index_contained_node_population (ctx : Context P) :
    call_index_contained (node_population (I := I) (F := F) ctx) := by
  unfold node_population
  apply call_index_contained_foldl
  intro a n h
  exact absurd h (List.not_mem_nil _)

/-- Index invariant of the node-population pass: every `proc_index` binding
points below the node count, and no two bindings share their node. -/
def proc_index_ok (st : CallGraph P I F) : Prop :=
  (∀ q ∈ st.proc_index, q.2 < st.graph.nodes.length) ∧
    (st.proc_index.map Prod.snd).Nodup

/-- One node-population step preserves the `proc_index` invariant. -/
theorem proc_index_ok_add {st : CallGraph P I F} {p : Procedure P}
    (h : proc_index_ok st) : proc_index_ok (add_procedure st p) := by
  obtain ⟨hbound, hnodup⟩ := h
  constructor
  · intro q hq
    obtain ⟨a, n⟩ := q
    rw [add_procedure_proc_index] at hq
    rw [add_procedure_nodes, List.length_append]
    rcases mem_hmInsert.mp hq with ⟨_, rfl⟩ | ⟨hold, _⟩
    · simp
    · have := hbound (a, n) hold
      simp at this ⊢
      omega
  · rw [add_procedure_proc_index]
    simp only [hmInsert, List.map_cons]
    rw [List.nodup_cons]
    constructor
    · intro hmem
      obtain ⟨q, hq, hsnd⟩ := List.mem_map.mp hmem
      have := hbound q (List.mem_of_mem_filter hq)
      omega
    · exact hnodup.sublist ((List.filter_sublist _).map Prod.snd)

/-- The node-population fold preserves the `proc_index` invariant. -/
theorem proc_index_ok_foldl :
    ∀ {l : List (Procedure P)} {st : CallGraph P I F},
      proc_index_ok st → proc_index_ok (l.foldl add_procedure st) := by
  intro l
  induction l with
  | nil => intro st h; exact h
  | cons p rest ih =>
    intro st h
    rw [List.foldl_cons]
    exact ih (proc_index_ok_add h)

/-- The fully populated state satisfies the `proc_index` invariant. -/
theorem proc_index_ok_node_population (ctx : Context P) :
    proc_index_ok (node_population (I := I) (F := F) ctx) := by
  unfold node_population
  apply proc_index_ok_foldl
  exact ⟨fun q hq => absurd hq (List.not_mem_nil q), List.nodup_nil⟩

/-- Bindings of a map with pairwise distinct values determine their key. -/
theorem proc_index_inj {st : CallGraph P I F} (h : proc_index_ok st) {a b n : Nat}
    (ha : (a, n) ∈ st.proc_index) (hb : (b, n) ∈ st.proc_index) : a = b := by
  have := List.inj_on_of_nodup_map h.2 ha hb rfl
  exact congrArg Prod.fst this

/-- The canonical `CompilationInfo` of one build: the compilation-unit
directories and the detected toolchain version with the absent case collapsed
to the empty string (`unwrap_or_default`). -/
def build_compilation_info (ctx : Context P) : CompilationInfo :=
  { compilation_dirs := get_compilation_unit_directories ctx
    rust_version := (get_rust_version ctx).getD "" }

/-- Pair-threading fold: the first component folds the payload function and
the second appends one log entry per element. -/
theorem foldl_pair_both {α β γ : Type _} (f : γ → α → γ) (g : α → β) :
    ∀ (l : List α) (s : γ) (e : List β),
      l.foldl (fun p a => (f p.1 a, p.2 ++ [g a])) (s, e) = (l.foldl f s, e ++ l.map g) := by
  intro l
  induction l with
  | nil => intro s e; simp
  | cons a t ih =>
    intro s e
    rw [List.foldl_cons, List.foldl_cons, List.map_cons]
    rw [ih (f s a) (e ++ [g a])]
    simp

/-- The enumerated finder fold: the first component folds `apply_finder` over
the plain finder list and the log gains one indexed `finder_invoked` entry per
finder. -/
theorem foldl_finder_events (ctx : Context P) (info : CompilationInfo) :
    ∀ (l : List (InvocationFinder P I F)) (n : Nat) (st : CallGraph P I F)
      (e : List BuildEvent),
      (List.enumFrom n l).foldl
        (fun p x => (apply_finder ctx info p.1 x.2,
          p.2 ++ [BuildEvent.finder_invoked x.1 info])) (st, e) =
      (l.foldl (apply_finder ctx info) st,
       e ++ (List.range' n l.length).map (fun i => BuildEvent.finder_invoked i info)) := by
  intro l
  induction l with
  | nil => intro n st e; simp
  | cons f t ih =>
    intro n st e
    rw [List.enumFrom, List.foldl_cons, List.foldl_cons]
    rw [ih (n + 1) (apply_finder ctx info st f) (e ++ [BuildEvent.finder_invoked n info])]
    simp [List.range']

/-- The instrumented build computes the same call graph as `build_call_graph`,
and its event log is: the two metadata extractions, then one `node_added` per
flattened procedure in order, then one `finder_invoked` per configured finder
in list order, each carrying the canonical `CompilationInfo`. -/
theorem build_call_graph_events_spec (builder : X86CallGraphBuilder P I F)
    (ctx : Context P) :
    build_call_graph_events builder ctx =
      (build_call_graph builder ctx,
       [BuildEvent.computed_dirs (get_compilation_unit_directories ctx),
        BuildEvent.computed_version (get_rust_version ctx)]
       ++ (flatten_procedures ctx).map (fun p => BuildEvent.node_added p.start_address)
       ++ (List.range builder.invocation_finders.length).map
            (fun i => BuildEvent.finder_invoked i (build_compilation_info ctx))) := by
  simp only [build_call_graph_events, build_call_graph, build_compilation_info,
    List.enum]
  rw [foldl_pair_both, foldl_finder_events]
  simp [node_population, List.range_eq_range']

/-- A concrete procedure with the given address, name and disassembly, used by
the closed witnesses below. -/
def mk_procedure (addr : Nat) (nm : String) (insns : List Instruction) :
    Procedure Unit :=
  { start_address := addr
    name := nm
    linkage_name := nm
    linkage_name_demangled := nm
    defining_crate := { name := "c", version := none }
    location := none
    disassembly := insns
    attributes :=
      { entry_point := false
        reachable_from_entry_point := false
        is_panic := false
        is_panic_origin := false
        whitelisted := false }
    metadata := () }

/-- A concrete one-unit context yielding the given procedures, with no
compilation-unit directories and no detected toolchain version. -/
def mk_context (procs : List (Procedure Unit)) : Context Unit :=
  { units := [0]
    compilation_unit_directories := []
    rust_version := none
    procedures_of := fun _ _ => procs }

/-- A finder that detects nothing: it returns the graph and both indices
unchanged. -/
def id_finder : InvocationFinder Unit Unit Unit :=
  fun graph proc_index call_index _ _ => (graph, proc_index, call_index)

/-- C1 counterexample: on an input whose flattened procedure sequence repeats
the start address 100, the call graph returned by `build_call_graph` contains
two distinct nodes (positions 0 and 1) both carrying start address 100, while
`proc_index` keeps only the binding to the later node.  This refutes the claim
that the built graph never contains two distinct nodes sharing a start
address. -/
theorem duplicate_start_address_two_nodes :
    ((build_call_graph (P := Unit) (I := Unit) (F := Unit)
        { invocation_finders := [] }
        (mk_context [mk_procedure 100 "f" [], mk_procedure 100 "g" []])).graph.nodes.map
      Procedure.start_address) = [100, 100] ∧
    (build_call_graph (P := Unit) (I := Unit) (F := Unit)
        { invocation_finders := [] }
        (mk_context [mk_procedure 100 "f" [], mk_procedure 100 "g" []])).proc_index
      = [(100, 1)] := by
  constructor
  · decide
  · decide

/-- C1 (amended): after node population, `proc_index` is injective — no two of
its bindings share a node — and, provided the flattened input procedures have
pairwise distinct start addresses, no two distinct graph nodes share a start
address.  (When the input repeats a start address the builder keeps the
earlier node in the graph and only overwrites the `proc_index` binding.) -/
theorem proc_index_injective_nodes_unique (ctx : Context P) :
    (∀ a b n, (a, n) ∈ (node_population (I := I) (F := F) ctx).proc_index →
        (b, n) ∈ (node_population (I := I) (F := F) ctx).proc_index → a = b) ∧
    (((flatten_procedures ctx).map Procedure.start_address).Nodup →
      ((node_population (I := I) (F := F) ctx).graph.nodes.map
          Procedure.start_address).Nodup) := by
  constructor
  · intro a b n ha hb
    exact proc_index_inj (proc_index_ok_node_population ctx) ha hb
  · intro h
    rw [node_population_nodes]
    exact h

/-- Closed witness for `proc_index_injective_nodes_unique` at a concrete
two-procedure context with distinct start addresses. -/
theorem proc_index_injective_nodes_unique_witness :
    ((100, 0) ∈ (node_population (I := Unit) (F := Unit)
        (mk_context [mk_procedure 100 "f" [], mk_procedure 200 "g" []])).proc_index) ∧
    (100 : Nat) = 100 ∧
    (((flatten_procedures (mk_context [mk_procedure 100 "f" [], mk_procedure 200 "g" []])).map
        Procedure.start_address).Nodup) ∧
    ((node_population (I := Unit) (F := Unit)
        (mk_context [mk_procedure 100 "f" [], mk_procedure 200 "g" []])).graph.nodes.map
        Procedure.start_address).Nodup := by
  refine ⟨by decide, ?_, by decide, ?_⟩
  · exact (proc_index_injective_nodes_unique (I := Unit) (F := Unit)
      (mk_context [mk_procedure 100 "f" [], mk_procedure 200 "g" []])).1
      100 100 0 (by decide) (by decide)
  · exact (proc_index_injective_nodes_unique (I := Unit) (F := Unit)
      (mk_context [mk_procedure 100 "f" [], mk_procedure 200 "g" []])).2 (by decide)

/-- Modelled from the spec: the abstract instruction-classification capability
of the disassembly engine (spec section 9): per-instruction membership in the
CALL semantic class and in the JUMP semantic class, behind which the numeric
group identifiers of the concrete library are supposed to stay hidden. -/
structure InsnClassifier where
  is_call : Instruction → Bool
  is_jump : Instruction → Bool

/-- A disassembly-engine classification whose CALL semantic class is the
numeric group id 30 and whose JUMP semantic class is 31 — a library whose
group numbering differs from capstone's. -/
def classifier_30_31 : InsnClassifier :=
  { is_call := fun insn => insn.groups.contains 30
    is_jump := fun insn => insn.groups.contains 31 }

/-- C2 counterexample: the builder hard-codes the capstone group ids 2 and 1
(x86_cg_builder.rs lines 51-52).  For an engine whose CALL semantic class is
the group id 30, the instruction at address 500 is CALL-class, yet node
population records nothing in `call_index`, refuting the claim that membership
in the engine's CALL/JUMP semantic classes decides recording without
hard-coded numeric identifiers. -/
theorem hardcoded_groups_counterexample :
    classifier_30_31.is_call { address := 500, groups := [30] } = true ∧
    ({ address := 500, groups := [30] } : Instruction) ∈
      (mk_procedure 400 "h" [{ address := 500, groups := [30] }]).disassembly ∧
    (node_population (I := Unit) (F := Unit)
        (mk_context [mk_procedure 400 "h" [{ address := 500, groups := [30] }]])).call_index
      = [] := by
  refine ⟨rfl, by decide, by decide⟩

/-- C2 (amended): during node population an address is recorded in
`call_index` exactly when some flattened procedure has an instruction at that
address whose group ids, as reported by the disassembly engine, contain the
numeric ids hard-coded in the builder: `group_calls = 2` or `group_jumps = 1`
(capstone's identifiers, bound at x86_cg_builder.rs lines 51-52). -/
theorem call_index_iff_hardcoded_groups (ctx : Context P) (addr : Nat) :
    (∃ n, (addr, n) ∈ (node_population (I := I) (F := F) ctx).call_index) ↔
      ∃ p ∈ flatten_procedures ctx, ∃ insn ∈ p.disassembly,
        insn.address = addr ∧ insn_in_call_or_jump_group insn = true := by
  constructor
  · intro h
    obtain ⟨n, hn⟩ := h
    unfold node_population at hn
    rcases mem_call_index_foldl hn with h' | h'
    · exact absurd h' (List.not_mem_nil _)
    · exact h'
  · intro h
    unfold node_population
    exact hasKey_call_index_foldl (Or.inr h)

/-- Closed witness for `call_index_iff_hardcoded_groups`: a call-class
instruction (capstone group 2) at address 500 is recorded. -/
theorem call_index_iff_hardcoded_groups_witness :
    ∃ n, (500, n) ∈ (node_population (I := Unit) (F := Unit)
        (mk_context [mk_procedure 400 "f"
          [{ address := 500, groups := [2] }]])).call_index :=
  (call_index_iff_hardcoded_groups
      (mk_context [mk_procedure 400 "f" [{ address := 500, groups := [2] }]]) 500).mpr
    ⟨mk_procedure 400 "f" [{ address := 500, groups := [2] }], by decide,
     { address := 500, groups := [2] }, by decide, rfl, by decide⟩

/-- C3: containment — every binding `(addr, node)` of the `call_index` built
by the node-population pass (the indices as they stand before any finder
mutates them) points at a node whose stored procedure has an instruction at
address `addr` in its disassembly. -/
theorem call_index_containment (ctx : Context P) (addr node : Nat)
    (h : (addr, node) ∈ (node_population (I := I) (F := F) ctx).call_index) :
    ∃ hn : node < (node_population (I := I) (F := F) ctx).graph.nodes.length,
      ∃ insn ∈ ((node_population (I := I) (F := F) ctx).graph.nodes.get
          ⟨node, hn⟩).disassembly, insn.address = addr :=
  call_index_contained_node_population ctx addr node h

/-- Closed witness for `call_index_containment` at a concrete one-procedure
context. -/
theorem call_index_containment_witness :
    ((500, 0) ∈ (node_population (I := Unit) (F := Unit)
        (mk_context [mk_procedure 400 "f"
          [{ address := 500, groups := [2] }]])).call_index) ∧
    ∃ hn : 0 < (node_population (I := Unit) (F := Unit)
        (mk_context [mk_procedure 400 "f"
          [{ address := 500, groups := [2] }]])).graph.nodes.length,
      ∃ insn ∈ ((node_population (I := Unit) (F := Unit)
          (mk_context [mk_procedure 400 "f"
            [{ address := 500, groups := [2] }]])).graph.nodes.get
          ⟨0, hn⟩).disassembly, insn.address = 500 :=
  ⟨by decide, call_index_containment
    (mk_context [mk_procedure 400 "f" [{ address := 500, groups := [2] }]])
    500 0 (by decide)⟩

/-- C4: the build is two-phased and ordered — the instrumented build computes
the same graph as `build_call_graph`, and its event log places every
`node_added` event (one per flattened procedure, in order) strictly before
every `finder_invoked` event, and invokes the finders exactly once each, in
the order of the configured list, all receiving the same graph state thread
and the canonical `CompilationInfo`. -/
theorem build_two_phase_ordered (builder : X86CallGraphBuilder P I F)
    (ctx : Context P) :
    (build_call_graph_events builder ctx).1 = build_call_graph builder ctx ∧
    (build_call_graph_events builder ctx).2 =
      [BuildEvent.computed_dirs (get_compilation_unit_directories ctx),
       BuildEvent.computed_version (get_rust_version ctx)]
      ++ (flatten_procedures ctx).map (fun p => BuildEvent.node_added p.start_address)
      ++ (List.range builder.invocation_finders.length).map
           (fun i => BuildEvent.finder_invoked i (build_compilation_info ctx)) := by
  rw [build_call_graph_events_spec]
  exact ⟨rfl, rfl⟩

/-- C5: construction never fails — `build_call_graph` is a total function into
`CallGraph` (its type has no error alternative), node population adds no
edges, and with no finder classifying anything the returned graph simply has
no outgoing edges at all while the call sites stay in `call_index`. -/
theorem build_never_fails (builder : X86CallGraphBuilder P I F) (ctx : Context P) :
    (∃ cg : CallGraph P I F, build_call_graph builder ctx = cg) ∧
    (node_population (I := I) (F := F) ctx).graph.edges = [] ∧
    build_call_graph { invocation_finders := ([] : List (InvocationFinder P I F)) } ctx
      = node_population ctx ∧
    (build_call_graph { invocation_finders := ([] : List (InvocationFinder P I F)) } ctx).graph.edges
      = [] := by
  refine ⟨⟨_, rfl⟩, node_population_edges ctx, rfl, ?_⟩
  show (node_population (I := I) (F := F) ctx).graph.edges = []
  exact node_population_edges ctx

/-- C6: re-running the builder is deterministic — on equal contexts, the two
returned call graphs have equal node sequences, equal edge sequences, equal
edge typing, and equal indices. -/
theorem build_deterministic (builder : X86CallGraphBuilder P I F)
    (ctx1 ctx2 : Context P) (h : ctx1 = ctx2) :
    (build_call_graph builder ctx1).graph.nodes
      = (build_call_graph builder ctx2).graph.nodes ∧
    (build_call_graph builder ctx1).graph.edges
      = (build_call_graph builder ctx2).graph.edges ∧
    ((build_call_graph builder ctx1).graph.edges.map
        (fun e => e.2.2.invocation_type))
      = ((build_call_graph builder ctx2).graph.edges.map
        (fun e => e.2.2.invocation_type)) ∧
    (build_call_graph builder ctx1).proc_index
      = (build_call_graph builder ctx2).proc_index ∧
    (build_call_graph builder ctx1).call_index
      = (build_call_graph builder ctx2).call_index := by
  subst h
  exact ⟨rfl, rfl, rfl, rfl, rfl⟩

/-- Closed witness for `build_deterministic` at a concrete context. -/
theorem build_deterministic_witness :
    (mk_context [mk_procedure 100 "f" []] = mk_context [mk_procedure 100 "f" []]) ∧
    (build_call_graph (P := Unit) (I := Unit) (F := Unit) { invocation_finders := [] }
        (mk_context [mk_procedure 100 "f" []])).graph.nodes =
      (build_call_graph (P := Unit) (I := Unit) (F := Unit) { invocation_finders := [] }
        (mk_context [mk_procedure 100 "f" []])).graph.nodes :=
  ⟨rfl, (build_deterministic (P := Unit) (I := Unit) (F := Unit) { invocation_finders := [] }
    (mk_context [mk_procedure 100 "f" []])
    (mk_context [mk_procedure 100 "f" []]) rfl).1⟩

/-- C7: the compilation-unit directories and the toolchain version are
extracted exactly once, at the start of the build and before any node is
added, and every invoked finder receives the same `CompilationInfo` carrying
those two values. -/
theorem compilation_info_once_shared (builder : X86CallGraphBuilder P I F)
    (ctx : Context P) :
    (∃ rest : List BuildEvent,
      (build_call_graph_events builder ctx).2 =
        BuildEvent.computed_dirs (get_compilation_unit_directories ctx) ::
          BuildEvent.computed_version (get_rust_version ctx) :: rest ∧
      ∀ d v, BuildEvent.computed_dirs d ∉ rest ∧ BuildEvent.computed_version v ∉ rest) ∧
    (∀ i info, BuildEvent.finder_invoked i info ∈ (build_call_graph_events builder ctx).2 →
      info = build_compilation_info ctx) ∧
    (∀ i j infoi infoj,
      BuildEvent.finder_invoked i infoi ∈ (build_call_graph_events builder ctx).2 →
      BuildEvent.finder_invoked j infoj ∈ (build_call_graph_events builder ctx).2 →
      infoi = infoj) := by
  have hev := congrArg Prod.snd (build_call_graph_events_spec builder ctx)
  simp only at hev
  refine ⟨⟨(flatten_procedures ctx).map (fun p => BuildEvent.node_added p.start_address)
      ++ (List.range builder.invocation_finders.length).map
           (fun i => BuildEvent.finder_invoked i (build_compilation_info ctx)), ?_, ?_⟩, ?_, ?_⟩
  · rw [hev]
    simp
  · intro d v
    constructor
    · intro hm
      rcases List.mem_append.mp hm with hm | hm <;>
        · obtain ⟨x, _, hx⟩ := List.mem_map.mp hm
          exact BuildEvent.noConfusion hx
    · intro hm
      rcases List.mem_append.mp hm with hm | hm <;>
        · obtain ⟨x, _, hx⟩ := List.mem_map.mp hm
          exact BuildEvent.noConfusion hx
  · intro i info hm
    rw [hev] at hm
    rcases List.mem_append.mp hm with hm | hm
    · rcases List.mem_append.mp hm with hm | hm
      · simp at hm
      · obtain ⟨x, _, hx⟩ := List.mem_map.mp hm
        exact BuildEvent.noConfusion hx
    · obtain ⟨x, _, hx⟩ := List.mem_map.mp hm
      cases hx
      rfl
  · intro i j infoi infoj hmi hmj
    rw [hev] at hmi hmj
    have hi : infoi = build_compilation_info ctx := by
      rcases List.mem_append.mp hmi with hm | hm
      · rcases List.mem_append.mp hm with hm | hm
        · simp at hm
        · obtain ⟨x, _, hx⟩ := List.mem_map.mp hm
          exact BuildEvent.noConfusion hx
      · obtain ⟨x, _, hx⟩ := List.mem_map.mp hm
        cases hx
        rfl
    have hj : infoj = build_compilation_info ctx := by
      rcases List.mem_append.mp hmj with hm | hm
      · rcases List.mem_append.mp hm with hm | hm
        · simp at hm
        · obtain ⟨x, _, hx⟩ := List.mem_map.mp hm
          exact BuildEvent.noConfusion hx
      · obtain ⟨x, _, hx⟩ := List.mem_map.mp hm
        cases hx
        rfl
    rw [hi, hj]

/-- Closed witness for `compilation_info_once_shared` at a concrete context
with one finder. -/
theorem compilation_info_once_shared_witness :
    (BuildEvent.finder_invoked 0 { compilation_dirs := [], rust_version := "" } ∈
      (build_call_graph_events { invocation_finders := [id_finder] }
        (mk_context [mk_procedure 100 "f" []])).2) ∧
    ({ compilation_dirs := [], rust_version := "" } : CompilationInfo) =
      build_compilation_info (mk_context [mk_procedure 100 "f" []]) :=
  ⟨by decide,
   (compilation_info_once_shared { invocation_finders := [id_finder] }
      (mk_context [mk_procedure 100 "f" []])).2.1 0
     { compilation_dirs := [], rust_version := "" } (by decide)⟩

/-- C9: when toolchain-version detection yields nothing, every finder receives
a `CompilationInfo` whose `rust_version` is the empty string: the absent case
is collapsed by `unwrap_or_default`, so the `CompilationInfo` handed to the
finders is the same as for a context whose detected version is the detected
empty string. -/
theorem rust_version_defaulted (builder : X86CallGraphBuilder P I F)
    (ctx : Context P) (h : ctx.rust_version = none) :
    (∀ i info, BuildEvent.finder_invoked i info ∈ (build_call_graph_events builder ctx).2 →
      info.rust_version = "") ∧
    build_compilation_info ctx
      = build_compilation_info { ctx with rust_version := some "" } ∧
    (∀ i info,
      BuildEvent.finder_invoked i info ∈ (build_call_graph_events builder ctx).2 ↔
      BuildEvent.finder_invoked i info ∈
        (build_call_graph_events builder { ctx with rust_version := some "" }).2) := by
  have hinfo : build_compilation_info ctx
      = build_compilation_info { ctx with rust_version := some "" } := by
    simp [build_compilation_info, get_rust_version, get_compilation_unit_directories, h]
  have hev := congrArg Prod.snd (build_call_graph_events_spec builder ctx)
  have hev' := congrArg Prod.snd
    (build_call_graph_events_spec builder { ctx with rust_version := some "" })
  simp only at hev hev'
  refine ⟨?_, hinfo, ?_⟩
  · intro i info hm
    rw [hev] at hm
    rcases List.mem_append.mp hm with hm | hm
    · rcases List.mem_append.mp hm with hm | hm
      · simp at hm
      · obtain ⟨x, _, hx⟩ := List.mem_map.mp hm
        exact BuildEvent.noConfusion hx
    · obtain ⟨x, _, hx⟩ := List.mem_map.mp hm
      cases hx
      simp [build_compilation_info, get_rust_version, h]
  · intro i info
    rw [hev, hev', hinfo]
    constructor
    · intro hm
      rcases List.mem_append.mp hm with hm | hm
      · rcases List.mem_append.mp hm with hm | hm
        · simp at hm
        · obtain ⟨x, hx1, hx⟩ := List.mem_map.mp hm
          exact BuildEvent.noConfusion hx
      · obtain ⟨x, hx1, hx⟩ := List.mem_map.mp hm
        refine List.mem_append.mpr (Or.inr (List.mem_map.mpr ⟨x, hx1, hx⟩))
    · intro hm
      rcases List.mem_append.mp hm with hm | hm
      · rcases List.mem_append.mp hm with hm | hm
        · simp at hm
        · obtain ⟨x, hx1, hx⟩ := List.mem_map.mp hm
          exact BuildEvent.noConfusion hx
      · obtain ⟨x, hx1, hx⟩ := List.mem_map.mp hm
        refine List.mem_append.mpr (Or.inr (List.mem_map.mpr ⟨x, hx1, hx⟩))

/-- Closed witness for `rust_version_defaulted` at a concrete context with an
absent toolchain version and one finder. -/
theorem rust_version_defaulted_witness :
    ((mk_context [mk_procedure 100 "f" []]).rust_version = none) ∧
    (BuildEvent.finder_invoked 0 { compilation_dirs := [], rust_version := "" } ∈
      (build_call_graph_events { invocation_finders := [id_finder] }
        (mk_context [mk_procedure 100 "f" []])).2) ∧
    ({ compilation_dirs := [], rust_version := "" } : CompilationInfo).rust_version = "" :=
  ⟨rfl, by decide,
   (rust_version_defaulted { invocation_finders := [id_finder] }
      (mk_context [mk_procedure 100 "f" []]) rfl).1 0
     { compilation_dirs := [], rust_version := "" } (by decide)⟩

/-- The error kinds declared by the `error_chain!` block of
src/lib/callgraph/src/errors.rs, each carrying its argument. -/
inductive ErrorKind
  | NotSupported (functionality : String)
  | ParseError (reason : String)
  | ReadError (path : String)
  | IOError (path : String)
deriving DecidableEq

/-- The `display` format of each error kind (src/lib/callgraph/src/errors.rs
lines 12-27). -/
def ErrorKind.display : ErrorKind → String
  | .NotSupported functionality =>
      "Analysis aborted: binary contains " ++ functionality ++ ", which is not supported. "
  | .ParseError reason => "Unable to parse file: " ++ reason
  | .ReadError path => "Unable to read file `" ++ path ++ "`"
  | .IOError path => "File not found `" ++ path ++ "`"

/-- The `description` text of each error kind (src/lib/callgraph/src/errors.rs). -/
def ErrorKind.description : ErrorKind → String
  | .NotSupported _ => "A binary was passed that requires unimplemented functionality."
  | .ParseError _ => "A file could not be parsed correctly."
  | .ReadError _ => "A file could not be read correctly."
  | .IOError _ => "Binary file not found."

/-- The constructor discriminant of the four error kinds. -/
def ErrorKind.tag : ErrorKind → Nat
  | .NotSupported _ => 0
  | .ParseError _ => 1
  | .ReadError _ => 2
  | .IOError _ => 3

/-- The argument carried by an error kind. -/
def ErrorKind.arg : ErrorKind → String
  | .NotSupported s => s
  | .ParseError s => s
  | .ReadError s => s
  | .IOError s => s

/-- Modelled from the spec: the five panic-pattern categories of the
downstream report (spec section 6); the `PanicPattern` type itself lives in
lib/panic_analysis outside the given sources, but src/src/output.rs matches
it exhaustively with exactly these five arms. -/
inductive PanicPattern
  | Unrecognized
  | DirectCall
  | Unwrap
  | Indexing
  | Arithmetic
deriving DecidableEq

/-- The JSON tag of each panic pattern (src/src/output.rs lines 124-130). -/
def pattern_tag : PanicPattern → String
  | .Unrecognized => "unrecognized"
  | .DirectCall => "direct_call"
  | .Unwrap => "unwrap"
  | .Indexing => "indexing"
  | .Arithmetic => "arithmetic"

/-- The JSON tag of each invocation type (src/src/output.rs lines 164-169). -/
def invocation_type_tag : InvocationType → String
  | .Direct => "direct"
  | .ProcedureReference => "procedure"
  | .VTable => "vtable"
  | .Jump => "jump"

/-- Character lists that provably disagree at some position common to both. -/
def listsDisagree : List Char → List Char → Bool
  | [], _ => false
  | _, [] => false
  | c :: s, d :: t => c != d || listsDisagree s t

/-- Appending anything to two disagreeing lists keeps them different. -/
theorem append_ne_of_listsDisagree :
    ∀ {u v : List Char}, listsDisagree u v = true →
      ∀ (x y : List Char), u ++ x ≠ v ++ y := by
  intro u
  induction u with
  | nil =>
    intro v h
    cases v <;> simp [listsDisagree] at h
  | cons c s ih =>
    intro v h x y
    cases v with
    | nil => simp [listsDisagree] at h
    | cons d t =>
      simp only [listsDisagree, Bool.or_eq_true, bne_iff_ne] at h
      intro he
      rw [List.cons_append, List.cons_append] at he
      injection he with h1 h2
      rcases h with h | h
      · exact h h1
      · exact ih h x y h2

/-- C8: the pipeline error taxonomy and report vocabulary are exact — the
callgraph error type has exactly the four declared kinds, each rendering a
distinct display message that mentions its argument; panic-pattern
classification has exactly the five categories with pairwise distinct JSON
tags; and `invocation_type` has exactly the four values with pairwise
distinct JSON tags. -/
theorem error_taxonomy_exact :
    (∀ e : ErrorKind, (∃ s, e = ErrorKind.NotSupported s) ∨
      (∃ s, e = ErrorKind.ParseError s) ∨ (∃ s, e = ErrorKind.ReadError s) ∨
      (∃ s, e = ErrorKind.IOError s)) ∧
    (∀ e1 e2 : ErrorKind, ErrorKind.tag e1 ≠ ErrorKind.tag e2 →
      ErrorKind.display e1 ≠ ErrorKind.display e2) ∧
    (∀ e : ErrorKind, ∃ u w : List Char,
      (ErrorKind.display e).data = u ++ (ErrorKind.arg e).data ++ w) ∧
    (∀ p : PanicPattern, p = PanicPattern.Unrecognized ∨ p = PanicPattern.DirectCall ∨
      p = PanicPattern.Unwrap ∨ p = PanicPattern.Indexing ∨ p = PanicPattern.Arithmetic) ∧
    (∀ p q : PanicPattern, pattern_tag p = pattern_tag q → p = q) ∧
    (∀ t : InvocationType, t = InvocationType.Direct ∨
      t = InvocationType.ProcedureReference ∨ t = InvocationType.VTable ∨
      t = InvocationType.Jump) ∧
    (∀ t u : InvocationType, invocation_type_tag t = invocation_type_tag u → t = u) := by
  refine ⟨?_, ?_, ?_, ?_, ?_, ?_, ?_⟩
  · intro e
    cases e with
    | NotSupported s => exact Or.inl ⟨s, rfl⟩
    | ParseError s => exact Or.inr (Or.inl ⟨s, rfl⟩)
    | ReadError s => exact Or.inr (Or.inr (Or.inl ⟨s, rfl⟩))
    | IOError s => exact Or.inr (Or.inr (Or.inr ⟨s, rfl⟩))
  · intro e1 e2 htag
    cases e1 <;> cases e2 <;>
      first
        | exact absurd rfl htag
        | (intro he
           have hd := congrArg String.data he
           simp only [ErrorKind.display, String.data_append, List.append_assoc] at hd
           exact append_ne_of_listsDisagree (by decide) _ _ hd)
  · intro e
    cases e with
    | NotSupported s =>
        exact ⟨"Analysis aborted: binary contains ".data, ", which is not supported. ".data,
          by simp [ErrorKind.display, ErrorKind.arg, String.data_append, List.append_assoc]⟩
    | ParseError s =>
        exact ⟨"Unable to parse file: ".data, [],
          by simp [ErrorKind.display, ErrorKind.arg, String.data_append]⟩
    | ReadError s =>
        exact ⟨"Unable to read file `".data, "`".data,
          by simp [ErrorKind.display, ErrorKind.arg, String.data_append, List.append_assoc]⟩
    | IOError s =>
        exact ⟨"File not found `".data, "`".data,
          by simp [ErrorKind.display, ErrorKind.arg, String.data_append, List.append_assoc]⟩
  · intro p
    cases p
    · exact Or.inl rfl
    · exact Or.inr (Or.inl rfl)
    · exact Or.inr (Or.inr (Or.inl rfl))
    · exact Or.inr (Or.inr (Or.inr (Or.inl rfl)))
    · exact Or.inr (Or.inr (Or.inr (Or.inr rfl)))
  · intro p q h
    cases p <;> cases q <;> first | rfl | exact absurd h (by decide)
  · intro t
    cases t
    · exact Or.inl rfl
    · exact Or.inr (Or.inl rfl)
    · exact Or.inr (Or.inr (Or.inl rfl))
    · exact Or.inr (Or.inr (Or.inr rfl))
  · intro t u h
    cases t <;> cases u <;> first | rfl | exact absurd h (by decide)

/-- Closed witness for `error_taxonomy_exact` at concrete kinds, patterns and
invocation types. -/
theorem error_taxonomy_exact_witness :
    (ErrorKind.tag (ErrorKind.IOError "a") ≠ ErrorKind.tag (ErrorKind.ReadError "b")) ∧
    (ErrorKind.display (ErrorKind.IOError "a") ≠ ErrorKind.display (ErrorKind.ReadError "b")) ∧
    (pattern_tag PanicPattern.Unwrap = pattern_tag PanicPattern.Unwrap) ∧
    (PanicPattern.Unwrap = PanicPattern.Unwrap) ∧
    (invocation_type_tag InvocationType.Jump = invocation_type_tag InvocationType.Jump) ∧
    (InvocationType.Jump = InvocationType.Jump) :=
  ⟨by decide,
   error_taxonomy_exact.2.1 (ErrorKind.IOError "a") (ErrorKind.ReadError "b") (by decide),
   rfl,
   error_taxonomy_exact.2.2.2.2.1 PanicPattern.Unwrap PanicPattern.Unwrap rfl,
   rfl,
   error_taxonomy_exact.2.2.2.2.2.2 InvocationType.Jump InvocationType.Jump rfl⟩

/-- The error kind of the command-line crate (src/src/errors.rs): a config
file that could not be read, carrying the path and an optional reason. -/
inductive CliErrorKind
  | ConfigLoad (path : String) (reason : Option String)
deriving DecidableEq

/-- Set of options on how to format the output (src/src/output.rs
lines 61-69). -/
structure OutputOptions where
  silent : Bool
  verbose : Bool
  json : Bool
deriving DecidableEq

/-- Modelled from the spec: the record returned by the external
`parse_config` of src/src/config_file.rs (not among the given sources); only
`function_whitelists` is read by `get_args`. -/
structure FileOptions where
  function_whitelists : List String
deriving DecidableEq

/-- Modelled from the spec: the analysis options record that `get_args`
fills, with the fields constructed at src/src/cmd_args.rs lines 56-63 (the
`AnalysisOptions` type itself lives in lib/panic_analysis outside the given
sources). -/
structure AnalysisOptions where
  binary_path : Option String
  crate_names : List String
  whitelisted_functions : List String
  output_filtered_callgraph : Bool
  output_full_callgraph : Bool
  full_crate_analysis : Bool
deriving DecidableEq

/-- The successfully parsed command-line matches that `get_args` consumes:
clap's `ArgMatches` restricted to the arguments declared in
`get_app_definition` (src/src/cmd_args.rs lines 74-142).  A `none` value
models an absent optional argument; the clap failure paths call
`process::exit` and never reach the body of `get_args`. -/
structure ArgMatches where
  binary : String
  crates : Option (List String)
  callgraph : Option (List String)
  config : Option String
  verbose : Bool
  silent : Bool
  json_stream : Bool
  full_crate_analysis : Bool
deriving DecidableEq

/-- `parse_multiple_args` (src/src/cmd_args.rs lines 25-30): an absent
multi-value argument becomes the empty list. -/
def parse_multiple_args (values : Option (List String)) : List String :=
  match values with
  | some x => x
  | none => []

/-- `get_args` (src/src/cmd_args.rs lines 32-72) after successful
command-line matching.  The external `parse_config` is passed as a
parameter; the only error `get_args` can return is the one propagated from
`parse_config` by the `?` on line 54. -/
def get_args (parse_config : String → Bool → Except CliErrorKind FileOptions)
    (cmd_matches : ArgMatches) :
    Except CliErrorKind (AnalysisOptions × OutputOptions) :=
  let crate_names := parse_multiple_args cmd_matches.crates
  let callgraph_outputs := parse_multiple_args cmd_matches.callgraph
  let config_opt := cmd_matches.config
  let required := config_opt.isSome
  match parse_config (config_opt.getD "rustig.toml") required with
  | Except.error e => Except.error e
  | Except.ok file_options =>
      Except.ok
        ({ binary_path := some cmd_matches.binary
           crate_names := crate_names
           whitelisted_functions := file_options.function_whitelists
           output_filtered_callgraph :=
             callgraph_outputs.any (fun output => output == "filtered")
           output_full_callgraph :=
             callgraph_outputs.any (fun output => output == "full")
           full_crate_analysis := cmd_matches.full_crate_analysis },
         { verbose := cmd_matches.verbose
           silent := cmd_matches.silent
           json := cmd_matches.json_stream })

/-- The path/required pair `get_args` hands to `parse_config`
(src/src/cmd_args.rs lines 51-54). -/
def config_request (cmd_matches : ArgMatches) : String × Bool :=
  (cmd_matches.config.getD "rustig.toml", cmd_matches.config.isSome)

/-- C10: the configuration file is optional exactly when it is defaulted —
an absent `--config` yields the request `("rustig.toml", required = false)`,
an explicit `--config PATH` yields `(PATH, required = true)`; any error
`get_args` returns is the error `parse_config` produced on that request, so
if `parse_config` cannot fail when the file is not required, `get_args`
succeeds whenever `--config` was not passed. -/
theorem get_args_config_optional
    (parse_config : String → Bool → Except CliErrorKind FileOptions)
    (m : ArgMatches) :
    (m.config = none → config_request m = ("rustig.toml", false)) ∧
    (∀ p, m.config = some p → config_request m = (p, true)) ∧
    (∀ e, get_args parse_config m = Except.error e →
      parse_config (config_request m).1 (config_request m).2 = Except.error e) ∧
    ((∀ q, ∃ fo, parse_config q false = Except.ok fo) → m.config = none →
      ∃ r, get_args parse_config m = Except.ok r) := by
  refine ⟨?_, ?_, ?_, ?_⟩
  · intro h
    simp [config_request, h]
  · intro p h
    simp [config_request, h]
  · intro e h
    simp only [get_args] at h
    simp only [config_request]
    cases hpc : parse_config (m.config.getD "rustig.toml") m.config.isSome with
    | error e' =>
        rw [hpc] at h
        simp only at h
        injection h with h'
        rw [h']
    | ok fo =>
        rw [hpc] at h
        simp only at h
        exact absurd h (by simp)
  · intro hok hnone
    obtain ⟨fo, hfo⟩ := hok "rustig.toml"
    refine ⟨({ binary_path := some m.binary
               crate_names := parse_multiple_args m.crates
               whitelisted_functions := fo.function_whitelists
               output_filtered_callgraph :=
                 (parse_multiple_args m.callgraph).any (fun output => output == "filtered")
               output_full_callgraph :=
                 (parse_multiple_args m.callgraph).any (fun output => output == "full")
               full_crate_analysis := m.full_crate_analysis },
             { verbose := m.verbose
               silent := m.silent
               json := m.json_stream }), ?_⟩
    simp [get_args, hnone, hfo]

/-- A `parse_config` that always succeeds with empty whitelists. -/
def always_ok_parse : String → Bool → Except CliErrorKind FileOptions :=
  fun _ _ => Except.ok { function_whitelists := [] }

/-- Concrete command-line matches with no `--config` argument. -/
def m_no_config : ArgMatches :=
  { binary := "b"
    crates := none
    callgraph := none
    config := none
    verbose := false
    silent := false
    json_stream := false
    full_crate_analysis := false }

/-- Closed witness for `get_args_config_optional` at a concrete invocation
with no explicit config argument and a `parse_config` that cannot fail. -/
theorem get_args_config_optional_witness :
    (config_request m_no_config = ("rustig.toml", false)) ∧
    ∃ r, get_args always_ok_parse m_no_config = Except.ok r :=
  ⟨(get_args_config_optional always_ok_parse m_no_config).1 rfl,
   (get_args_config_optional always_ok_parse m_no_config).2.2.2
     (fun _ => ⟨{ function_whitelists := [] }, rfl⟩) rfl⟩

end Rustig
